import Mathlib

/-!
Shallow embedding of the streak/activity aggregation algorithm
(`calculate_streaks_and_activity` in `today.py`) and verification of the
frozen claims about it.

Dates are modelled as natural numbers counting days since an epoch, so
"yesterday" is `today - 1` and the lexicographic comparison of ISO date
strings in the source corresponds to `Nat` order.  Counts are naturals
(the source guarantees non-negative counts).  The floating-point average
of the source is modelled exactly over `ℚ`.
-/

namespace Today

/-- A day record: `{"date": ..., "count": ...}` from the contribution
calendar.  `date` is a day number, `count` the contribution count. -/
structure Day where
  date : Nat
  count : Nat
deriving DecidableEq, Repr

/-- Default day used for out-of-range `getD` lookups (never reached on
the index ranges the algorithm uses). -/
def dflt : Day := ⟨0, 0⟩

/-- The mutable state of the single left-to-right pass in
`calculate_streaks_and_activity` (lines 354-361 of `today.py`):
`longest_streak`, `longest_streak_start`, `longest_streak_end`,
`temp_streak`, `temp_streak_start`, `best_day_count`, `best_day_date`. -/
structure PassState where
  longest : Nat
  lstart : Option Nat
  lend : Option Nat
  temp : Nat
  tstart : Option Nat
  best : Nat
  bdate : Option Nat
deriving DecidableEq, Repr

/-- Initial pass state: all zero / `None`. -/
def initState : PassState := ⟨0, none, none, 0, none, 0, none⟩

/-- One iteration of the loop `for i, day in enumerate(all_days)`
(lines 368-384).  `prev` is `all_days[i-1]` when `i > 0`, else `none`,
so the source's `all_days[i-1]["date"] if i > 0 else temp_streak_start`
is the `match prev` below. -/
def passStep (prev : Option Day) (s : PassState) (d : Day) : PassState :=
  if 0 < d.count then
    { s with
      tstart := if s.temp = 0 then some d.date else s.tstart,
      temp := s.temp + 1,
      best := if s.best < d.count then d.count else s.best,
      bdate := if s.best < d.count then some d.date else s.bdate }
  else
    if s.longest < s.temp then
      { s with
        longest := s.temp,
        lstart := s.tstart,
        lend := match prev with
          | some p => some p.date
          | none => s.tstart,
        temp := 0 }
    else
      { s with temp := 0 }

/-- Run the left-to-right pass over the day list, threading the
previous element for the `all_days[i-1]` access. -/
def runPass (prev : Option Day) (s : PassState) : List Day → PassState
  | [] => s
  | d :: rest => runPass (some d) (passStep prev s d) rest

/-- The final close-out after the pass (lines 386-390):
`if temp_streak > longest_streak: ... longest_streak_end = all_days[-1]["date"]
if all_days else temp_streak_start`. -/
def finalize (allDays : List Day) (s : PassState) : PassState :=
  if s.longest < s.temp then
    { s with
      longest := s.temp,
      lstart := s.tstart,
      lend := match allDays.getLast? with
        | some p => some p.date
        | none => s.tstart }
  else s

/-- The backward `while idx >= 0 and all_days[idx]["count"] > 0` walk of
lines 398-400.  `backCount allDays (n + 1)` is the number of additional
streak days counted when the walk starts at `idx = n`;
`backCount allDays 0` corresponds to starting at `idx = -1`. -/
def backCount (allDays : List Day) : Nat → Nat
  | 0 => 0
  | n + 1 => if 0 < (allDays.getD n dflt).count then backCount allDays n + 1 else 0

/-- The `for day in reversed(all_days)` loop of lines 393-403, computing
the current streak.  The argument list is the reversed remainder being
iterated; `allDays` stays the full list because the source looks up
`all_days.index(day)` (index of the first equal record) in it. -/
def currentStreakAux (allDays : List Day) (today yest : Nat) : List Day → Nat
  | [] => 0
  | d :: rest =>
    if d.date = today ∨ d.date = yest then
      if 0 < d.count then
        1 + backCount allDays (allDays.indexOf d)
      else
        currentStreakAux allDays today yest rest
    else if d.date < yest then
      0
    else
      currentStreakAux allDays today yest rest

/-- Current streak of a (merged, sorted) day list for a given `today`:
lines 392-403 of `today.py`. -/
def currentStreak (allDays : List Day) (today : Nat) : Nat :=
  currentStreakAux allDays today (today - 1) allDays.reverse

/-- The per-year rollup totals summed over all requested years
(lines 336-340). -/
structure Totals where
  contributions : Nat
  commits : Nat
  prs : Nat
  prReviews : Nat
  issues : Nat
deriving DecidableEq, Repr

/-- Zero rollup totals. -/
def zeroTotals : Totals := ⟨0, 0, 0, 0, 0⟩

/-- The dictionary returned by `calculate_streaks_and_activity`
(lines 409-423).  `start_date` holds the first processed year (standing
for its January 1st), `none` when no year was processed. -/
structure Summary where
  total_contributions : Nat
  current_streak : Nat
  longest_streak : Nat
  longest_streak_start : Option Nat
  longest_streak_end : Option Nat
  best_day_count : Nat
  best_day_date : Option Nat
  avg_per_day : ℚ
  total_commits : Nat
  total_prs : Nat
  total_pr_reviews : Nat
  total_issues : Nat
  start_date : Option Nat
deriving DecidableEq, Repr

/-- The aggregation core on the merged, sorted day sequence: the streak
pass with close-out, the current-streak scan, and the guarded average
`total_contributions / total_days if total_days > 0 else 0`
(lines 351-423 of `today.py`, after the per-year fetch loop). -/
def calcFromDays (today : Nat) (t : Totals) (startDate : Option Nat)
    (allDays : List Day) : Summary :=
  let s := finalize allDays (runPass none initState allDays)
  let totalDays := (allDays.filter (fun d => d.date ≤ today)).length
  { total_contributions := t.contributions,
    current_streak := currentStreak allDays today,
    longest_streak := s.longest,
    longest_streak_start := s.lstart,
    longest_streak_end := s.lend,
    best_day_count := s.best,
    best_day_date := s.bdate,
    avg_per_day :=
      if 0 < totalDays then (t.contributions : ℚ) / (totalDays : ℚ) else 0,
    total_commits := t.commits,
    total_prs := t.prs,
    total_pr_reviews := t.prReviews,
    total_issues := t.issues,
    start_date := startDate }

/-- The data the Calendar Data Source returns for one requested year:
the rollup fields and the year's ordered day records. -/
structure YearData where
  year : Nat
  contributions : Nat
  commits : Nat
  prs : Nat
  prReviews : Nat
  issues : Nat
  days : List Day
deriving DecidableEq, Repr

/-- Stable insertion of a day into a date-sorted list, placing it after
all records with the same or an earlier date (the stability of Python's
`list.sort(key=lambda x: x["date"])`). -/
def insertDay (d : Day) : List Day → List Day
  | [] => [d]
  | x :: xs => if d.date < x.date then d :: x :: xs else x :: insertDay d xs

/-- Stable sort of the merged day records by date
(`all_days.sort(key=lambda x: x["date"])`, line 351). -/
def sortDays (l : List Day) : List Day :=
  l.foldl (fun acc d => insertDay d acc) []

/-- Stable insertion of a year into a year-sorted list. -/
def insertYear (y : YearData) : List YearData → List YearData
  | [] => [y]
  | x :: xs => if y.year < x.year then y :: x :: xs else x :: insertYear y xs

/-- `sorted(years)` of line 325. -/
def sortYears (ys : List YearData) : List YearData :=
  ys.foldl (fun acc y => insertYear y acc) []

/-- Sum the per-year rollups in processing order (lines 336-340). -/
def sumTotals (ys : List YearData) : Totals :=
  ys.foldl
    (fun t y =>
      ⟨t.contributions + y.contributions, t.commits + y.commits,
        t.prs + y.prs, t.prReviews + y.prReviews, t.issues + y.issues⟩)
    zeroTotals

/-- The whole of `calculate_streaks_and_activity` with the network fetch
replaced by its result: process years in ascending order, sum the
rollups, merge and sort the day records, record the first processed year
as the start date, and run the aggregation core. -/
def calculate (today : Nat) (ys : List YearData) : Summary :=
  let ys' := sortYears ys
  let allDays := sortDays (ys'.foldl (fun acc y => acc ++ y.days) [])
  calcFromDays today (sumTotals ys') ((ys'.head?).map (·.year)) allDays

/-! ### Specification-side notions -/

/-- Length of the trailing run of positive-count records of a day list
(the "still-open running streak" at the end of the pass). -/
def TS (l : List Day) : Nat :=
  (l.reverse.takeWhile (fun d => decide (0 < d.count))).length

/-- `posRun l i L`: positions `i, i+1, ..., i+L-1` all exist in `l` and
all carry a positive count — a contiguous run of `L` active records. -/
def posRun (l : List Day) (i L : Nat) : Prop :=
  i + L ≤ l.length ∧ ∀ j < L, 0 < (l.getD (i + j) dflt).count

instance (l : List Day) (i L : Nat) : Decidable (posRun l i L) := by
  unfold posRun; infer_instance

/-- The maximum contribution count over a day list (0 when empty). -/
def maxCount (l : List Day) : Nat :=
  l.foldl (fun m d => max m d.count) 0

/-- Modelled from the spec: the backward walk of the current-streak
description, over the earlier records listed nearest-first.  `pd` is the
date of the record just counted; the walk continues only while the next
record is dated exactly one day earlier and has a positive count, i.e.
it stops at the first zero-count day or at a date gap. -/
def contigBack : Nat → List Day → Nat
  | _, [] => 0
  | pd, d :: rest =>
    if d.date + 1 = pd ∧ 0 < d.count then contigBack d.date rest + 1 else 0

/-- Modelled from the spec: the current-streak computation exactly as
§4.1 step 5 words it — from the most recent record, if it is dated today
or yesterday and has a positive count, count backward over contiguous
(no date gap) positive-count days. -/
def specCurrentStreak (l : List Day) (today : Nat) : Nat :=
  match l.reverse with
  | [] => 0
  | d :: rest =>
    if (d.date = today ∨ d.date = today - 1) ∧ 0 < d.count then
      contigBack d.date rest + 1
    else 0

/-- Modelled from the spec: the average as §3 words it, with
contributions dated after today excluded from the numerator. -/
def specAvg (today : Nat) (l : List Day) : ℚ :=
  let elig := l.filter (fun d => d.date ≤ today)
  if 0 < elig.length then
    (((elig.map Day.count).sum : Nat) : ℚ) / (elig.length : ℚ)
  else 0

/-! ### Basic lemmas about the embedded operations -/

lemma getD_snoc_lt (l : List Day) (d : Day) {i : Nat} (h : i < l.length) :
    (l ++ [d]).getD i dflt = l.getD i dflt := by
  rw [List.getD_eq_getElem?_getD, List.getD_eq_getElem?_getD,
    List.getElem?_append_left h]

lemma getD_snoc_length (l : List Day) (d : Day) :
    (l ++ [d]).getD l.length dflt = d := by
  rw [List.getD_eq_getElem?_getD, List.getElem?_concat_length]
  rfl

lemma getD_eq_getElem (l : List Day) {i : Nat} (h : i < l.length) :
    l.getD i dflt = l[i] := by
  rw [List.getD_eq_getElem?_getD, List.getElem?_eq_getElem h]
  rfl

lemma getD_eq_get_fin (l : List Day) {i : Nat} (h : i < l.length) :
    l.getD i dflt = l.get ⟨i, h⟩ := by
  rw [getD_eq_getElem l h, List.get_eq_getElem]

lemma getD_mem (l : List Day) {i : Nat} (h : i < l.length) :
    l.getD i dflt ∈ l := by
  rw [getD_eq_getElem l h]
  exact List.getElem_mem h

lemma TS_nil : TS [] = 0 := rfl

lemma TS_snoc (l : List Day) (d : Day) :
    TS (l ++ [d]) = if 0 < d.count then TS l + 1 else 0 := by
  unfold TS
  rw [List.reverse_concat', List.takeWhile_cons]
  by_cases h : 0 < d.count <;> simp [h]

lemma TS_le_length (l : List Day) : TS l ≤ l.length := by
  unfold TS
  calc (l.reverse.takeWhile (fun d => decide (0 < d.count))).length
      ≤ l.reverse.length := (List.takeWhile_sublist _).length_le
    _ = l.length := List.length_reverse l

lemma TS_pos_ne_nil (l : List Day) (h : 0 < TS l) : l ≠ [] := by
  intro hl
  rw [hl, TS_nil] at h
  exact Nat.lt_irrefl 0 h

/-- The element playing the role of `all_days[i-1]` after processing a
whole list: its last element if any, else the incoming `prev`. -/
def lastOr (prev : Option Day) (l : List Day) : Option Day :=
  match l.getLast? with
  | some p => some p
  | none => prev

lemma lastOr_cons (prev : Option Day) (x : Day) (xs : List Day) :
    lastOr prev (x :: xs) = lastOr (some x) xs := by
  cases xs with
  | nil => rfl
  | cons y ys =>
      unfold lastOr
      rw [List.getLast?_cons_cons,
        List.getLast?_eq_getLast (y :: ys) (by simp)]

lemma lastOr_none (l : List Day) (h : l ≠ []) :
    lastOr none l = some (l.getD (l.length - 1) dflt) := by
  have hlen : l.length - 1 < l.length := by
    cases l with
    | nil => exact absurd rfl h
    | cons x xs => simp
  unfold lastOr
  rw [List.getLast?_eq_getElem?, List.getElem?_eq_getElem hlen,
    getD_eq_getElem l hlen]

lemma runPass_snoc (l : List Day) (prev : Option Day) (s : PassState) (d : Day) :
    runPass prev s (l ++ [d]) = passStep (lastOr prev l) (runPass prev s l) d := by
  induction l generalizing prev s with
  | nil => rfl
  | cons x xs ih =>
      rw [List.cons_append]
      have h1 : runPass prev s (x :: (xs ++ [d])) =
          runPass (some x) (passStep prev s x) (xs ++ [d]) := rfl
      rw [h1, ih, lastOr_cons]
      rfl

/-- The state of the pass after processing a whole day list from the
initial state. -/
def P (l : List Day) : PassState := runPass none initState l

lemma P_snoc (l : List Day) (d : Day) :
    P (l ++ [d]) = passStep (lastOr none l) (P l) d :=
  runPass_snoc l none initState d

lemma passStep_temp (prev : Option Day) (s : PassState) (d : Day) :
    (passStep prev s d).temp = if 0 < d.count then s.temp + 1 else 0 := by
  unfold passStep
  by_cases h : 0 < d.count
  · simp [h]
  · simp only [if_neg h]
    split <;> simp

lemma passStep_longest (prev : Option Day) (s : PassState) (d : Day) :
    (passStep prev s d).longest =
      if 0 < d.count then s.longest else max s.longest s.temp := by
  unfold passStep
  by_cases h : 0 < d.count
  · simp [h]
  · simp only [if_neg h]
    by_cases h2 : s.longest < s.temp <;> simp [h2] <;> omega

lemma passStep_tstart (prev : Option Day) (s : PassState) (d : Day) :
    (passStep prev s d).tstart =
      if 0 < d.count then
        (if s.temp = 0 then some d.date else s.tstart)
      else s.tstart := by
  unfold passStep
  by_cases h : 0 < d.count
  · simp [h]
  · simp only [if_neg h]
    split <;> simp

lemma passStep_lstart (prev : Option Day) (s : PassState) (d : Day) :
    (passStep prev s d).lstart =
      if 0 < d.count then s.lstart
      else if s.longest < s.temp then s.tstart else s.lstart := by
  unfold passStep
  by_cases h : 0 < d.count
  · simp [h]
  · simp only [if_neg h]
    by_cases h2 : s.longest < s.temp <;> simp [h2]

lemma passStep_lend (prev : Option Day) (s : PassState) (d : Day) :
    (passStep prev s d).lend =
      if 0 < d.count then s.lend
      else if s.longest < s.temp then
        (match prev with
          | some p => some p.date
          | none => s.tstart)
      else s.lend := by
  unfold passStep
  by_cases h : 0 < d.count
  · simp [h]
  · simp only [if_neg h]
    by_cases h2 : s.longest < s.temp <;> simp [h2]

lemma passStep_best (prev : Option Day) (s : PassState) (d : Day) :
    (passStep prev s d).best =
      if 0 < d.count then max s.best d.count else s.best := by
  unfold passStep
  by_cases h : 0 < d.count
  · simp only [if_pos h]
    by_cases h2 : s.best < d.count <;> simp [h2] <;> omega
  · simp only [if_neg h]
    split <;> simp

lemma passStep_bdate (prev : Option Day) (s : PassState) (d : Day) :
    (passStep prev s d).bdate =
      if 0 < d.count then
        (if s.best < d.count then some d.date else s.bdate)
      else s.bdate := by
  unfold passStep
  by_cases h : 0 < d.count
  · simp [h]
  · simp only [if_neg h]
    split <;> simp

/-- After the pass, `temp_streak` is the length of the trailing run of
positive-count records. -/
lemma P_temp (l : List Day) : (P l).temp = TS l := by
  induction l using List.reverseRecOn with
  | nil => rfl
  | append_singleton l d ih =>
      rw [P_snoc, passStep_temp, TS_snoc, ih]

/-- After the pass, when the trailing run is non-empty, `temp_streak_start`
is the date of its first record. -/
lemma P_tstart (l : List Day) (h : 0 < TS l) :
    (P l).tstart = some ((l.getD (l.length - TS l) dflt).date) := by
  induction l using List.reverseRecOn with
  | nil => exact absurd h (by simp [TS_nil])
  | append_singleton l d ih =>
      rw [TS_snoc] at h ⊢
      by_cases hd : 0 < d.count
      · rw [P_snoc, passStep_tstart, if_pos hd, P_temp, if_pos hd]
        have hlen : (l ++ [d]).length = l.length + 1 := by simp
        by_cases hts : TS l = 0
        · rw [if_pos hts, hts, hlen]
          have : l.length + 1 - (0 + 1) = l.length := by omega
          rw [this, getD_snoc_length]
        · rw [if_neg hts, ih (Nat.pos_of_ne_zero hts), hlen]
          have hTSle : TS l ≤ l.length := TS_le_length l
          have h1 : l.length + 1 - (TS l + 1) = l.length - TS l := by omega
          rw [h1, getD_snoc_lt l d (by omega)]
      · rw [if_neg hd] at h
        exact absurd h (by simp)

lemma posRun_of_snoc (l : List Day) (d : Day) {i L : Nat}
    (pr : posRun (l ++ [d]) i L) (h : i + L ≤ l.length) : posRun l i L := by
  refine ⟨h, fun j hj => ?_⟩
  have := pr.2 j hj
  rwa [getD_snoc_lt l d (by omega)] at this

lemma posRun_snoc_of (l : List Day) (d : Day) {i L : Nat}
    (pr : posRun l i L) : posRun (l ++ [d]) i L := by
  have hlen : (l ++ [d]).length = l.length + 1 := by simp
  have hb := pr.1
  refine ⟨by rw [hlen]; omega, fun j hj => ?_⟩
  rw [getD_snoc_lt l d (by omega)]
  exact pr.2 j hj

/-- The trailing run of positive records is indeed a positive run. -/
lemma posRun_trailing (l : List Day) : posRun l (l.length - TS l) (TS l) := by
  induction l using List.reverseRecOn with
  | nil =>
      refine ⟨by simp [TS_nil], fun j hj => ?_⟩
      rw [TS_nil] at hj
      exact absurd hj (Nat.not_lt_zero j)
  | append_singleton l d ih =>
      have hTSle : TS l ≤ l.length := TS_le_length l
      have hlen : (l ++ [d]).length = l.length + 1 := by simp
      rw [TS_snoc]
      by_cases hd : 0 < d.count
      · rw [if_pos hd, hlen]
        refine ⟨by omega, fun j hj => ?_⟩
        have hidx : l.length + 1 - (TS l + 1) = l.length - TS l := by omega
        rw [hidx]
        by_cases hjTS : j < TS l
        · rw [getD_snoc_lt l d (by omega)]
          have := ih.2 j hjTS
          exact this
        · have hj' : j = TS l := by omega
          have : l.length - TS l + j = l.length := by omega
          rw [this, getD_snoc_length]
          exact hd
      · rw [if_neg hd, hlen]
        exact ⟨by omega, fun j hj => absurd hj (Nat.not_lt_zero j)⟩

/-- A positive run that reaches the end of the list is no longer than the
trailing positive run. -/
lemma posRun_suffix_le_TS (l : List Day) :
    ∀ i L, posRun l i L → i + L = l.length → L ≤ TS l := by
  induction l using List.reverseRecOn with
  | nil =>
      intro i L pr hiL
      simp only [List.length_nil] at hiL
      omega
  | append_singleton l d ih =>
      intro i L pr hiL
      have hlen : (l ++ [d]).length = l.length + 1 := by simp
      rw [hlen] at hiL
      cases L with
      | zero => exact Nat.zero_le _
      | succ L' =>
          have hd : 0 < d.count := by
            have hp := pr.2 L' (by omega)
            have hidx : i + L' = l.length := by omega
            rwa [hidx, getD_snoc_length] at hp
          rw [TS_snoc, if_pos hd]
          have prl : posRun l i L' := by
            refine ⟨by omega, fun j hj => ?_⟩
            have hp := pr.2 j (by omega)
            rwa [getD_snoc_lt l d (by omega)] at hp
          exact Nat.succ_le_succ (ih i L' prl (by omega))

/-- Every positive run is bounded by the longest recorded streak after
the final close-out (`max longest temp`). -/
lemma posRun_le_max (l : List Day) :
    ∀ i L, posRun l i L → L ≤ max (P l).longest (TS l) := by
  induction l using List.reverseRecOn with
  | nil =>
      intro i L pr
      have := pr.1
      simp only [List.length_nil] at this
      have hL : L = 0 := by omega
      rw [hL]
      exact Nat.zero_le _
  | append_singleton l d ih =>
      intro i L pr
      have hlen : (l ++ [d]).length = l.length + 1 := by simp
      rw [P_snoc, passStep_longest, TS_snoc]
      by_cases hd : 0 < d.count
      · rw [if_pos hd, if_pos hd]
        by_cases hend : i + L ≤ l.length
        · have h1 := ih i L (posRun_of_snoc l d pr hend)
          exact le_trans h1 (max_le_max (le_refl _) (Nat.le_succ _))
        · have hsuf : L ≤ TS (l ++ [d]) := by
            refine posRun_suffix_le_TS (l ++ [d]) i L pr ?_
            have := pr.1
            rw [hlen] at this
            omega
          rw [TS_snoc, if_pos hd] at hsuf
          exact le_trans hsuf (le_max_right _ _)
      · rw [if_neg hd, if_neg hd, P_temp]
        rcases Nat.eq_zero_or_pos L with hL0 | hLpos
        · rw [hL0]
          exact Nat.zero_le _
        have hend : i + L ≤ l.length := by
          by_contra hc
          have hb := pr.1
          rw [hlen] at hb
          have hp := pr.2 (l.length - i) (by omega)
          have hidx : i + (l.length - i) = l.length := by omega
          rw [hidx, getD_snoc_length] at hp
          exact hd hp
        have h1 := ih i L (posRun_of_snoc l d pr hend)
        rw [Nat.max_zero]
        exact h1

/-- The recorded longest streak is a genuine positive run whose start and
end dates are the recorded ones. -/
def Good (l : List Day) (s : PassState) : Prop :=
  s.longest = 0 ∨
    ∃ i, posRun l i s.longest ∧
      s.lstart = some ((l.getD i dflt).date) ∧
      s.lend = some ((l.getD (i + s.longest - 1) dflt).date)

lemma good_lift (l : List Day) (d : Day) (s : PassState)
    (h : Good l s) : Good (l ++ [d]) s := by
  rcases h with h | ⟨i, pr, h1, h2⟩
  · exact Or.inl h
  rcases Nat.eq_zero_or_pos s.longest with hz | hp
  · exact Or.inl hz
  have hb := pr.1
  have hi : i < l.length := by omega
  have hi2 : i + s.longest - 1 < l.length := by omega
  exact Or.inr ⟨i, posRun_snoc_of l d pr,
    by rw [h1, getD_snoc_lt l d hi],
    by rw [h2, getD_snoc_lt l d hi2]⟩

lemma good_congr {l : List Day} {s s' : PassState}
    (hL : s'.longest = s.longest) (h1 : s'.lstart = s.lstart)
    (h2 : s'.lend = s.lend) (h : Good l s) : Good l s' := by
  unfold Good
  rw [hL, h1, h2]
  exact h

lemma good_P (l : List Day) : Good l (P l) := by
  induction l using List.reverseRecOn with
  | nil => exact Or.inl rfl
  | append_singleton l d ih =>
      rw [P_snoc]
      by_cases hd : 0 < d.count
      · refine good_congr ?_ ?_ ?_ (good_lift l d (P l) ih)
        · rw [passStep_longest, if_pos hd]
        · rw [passStep_lstart, if_pos hd]
        · rw [passStep_lend, if_pos hd]
      · by_cases hlt : (P l).longest < (P l).temp
        · have hTS : 0 < TS l := by
            rw [P_temp] at hlt
            omega
          have hne : l ≠ [] := TS_pos_ne_nil l hTS
          have hTSle := TS_le_length l
          have hlen0 : 0 < l.length := by omega
          have hlong : (passStep (lastOr none l) (P l) d).longest = TS l := by
            rw [passStep_longest, if_neg hd, P_temp]
            rw [P_temp] at hlt
            omega
          have hls : (passStep (lastOr none l) (P l) d).lstart =
              some ((l.getD (l.length - TS l) dflt).date) := by
            rw [passStep_lstart, if_neg hd, if_pos hlt]
            exact P_tstart l hTS
          have hle : (passStep (lastOr none l) (P l) d).lend =
              some ((l.getD (l.length - 1) dflt).date) := by
            rw [passStep_lend, if_neg hd, if_pos hlt, lastOr_none l hne]
          unfold Good
          rw [hlong, hls, hle]
          refine Or.inr ⟨l.length - TS l, posRun_snoc_of l d (posRun_trailing l), ?_, ?_⟩
          · rw [getD_snoc_lt l d (by omega)]
          · have heq : l.length - TS l + TS l - 1 = l.length - 1 := by omega
            rw [heq, getD_snoc_lt l d (by omega)]
        · refine good_congr ?_ ?_ ?_ (good_lift l d (P l) ih)
          · rw [passStep_longest, if_neg hd]
            omega
          · rw [passStep_lstart, if_neg hd, if_neg hlt]
          · rw [passStep_lend, if_neg hd, if_neg hlt]

lemma finalize_longest (l : List Day) :
    (finalize l (P l)).longest = max (P l).longest (TS l) := by
  unfold finalize
  rw [P_temp]
  by_cases h : (P l).longest < TS l
  · simp only [if_pos h]
    exact (Nat.max_eq_right (le_of_lt h)).symm
  · simp only [if_neg h]
    exact (Nat.max_eq_left (le_of_not_lt h)).symm

lemma finalize_best (l : List Day) (s : PassState) :
    (finalize l s).best = s.best := by
  unfold finalize
  split <;> rfl

lemma finalize_bdate (l : List Day) (s : PassState) :
    (finalize l s).bdate = s.bdate := by
  unfold finalize
  split <;> rfl

lemma good_final (l : List Day) : Good l (finalize l (P l)) := by
  by_cases h : (P l).longest < (P l).temp
  · have hTS : 0 < TS l := by
      rw [P_temp] at h
      omega
    have hne : l ≠ [] := TS_pos_ne_nil l hTS
    have hTSle := TS_le_length l
    have hlen0 : 0 < l.length := by omega
    have hlong : (finalize l (P l)).longest = TS l := by
      unfold finalize
      rw [if_pos h]
      exact P_temp l
    have hls : (finalize l (P l)).lstart =
        some ((l.getD (l.length - TS l) dflt).date) := by
      unfold finalize
      rw [if_pos h]
      exact P_tstart l hTS
    have hlelen : l.length - 1 < l.length := by omega
    have hle : (finalize l (P l)).lend =
        some ((l.getD (l.length - 1) dflt).date) := by
      unfold finalize
      rw [if_pos h]
      show (match l.getLast? with
        | some p => some p.date
        | none => (P l).tstart) = some ((l.getD (l.length - 1) dflt).date)
      rw [List.getLast?_eq_getElem?, List.getElem?_eq_getElem hlelen,
        getD_eq_getElem l hlelen]
    unfold Good
    rw [hlong, hls, hle]
    refine Or.inr ⟨l.length - TS l, posRun_trailing l, rfl, ?_⟩
    have heq : l.length - TS l + TS l - 1 = l.length - 1 := by omega
    rw [heq]
  · have heq : finalize l (P l) = P l := by
      unfold finalize
      rw [if_neg h]
    rw [heq]
    exact good_P l

/-! ### Best-day lemmas -/

lemma foldl_max_ge_init (l : List Day) (a : Nat) :
    a ≤ l.foldl (fun m d => max m d.count) a := by
  induction l generalizing a with
  | nil => exact le_refl a
  | cons x xs ih => exact le_trans (le_max_left a x.count) (ih (max a x.count))

lemma count_le_foldl_max (l : List Day) (a : Nat) :
    ∀ d ∈ l, d.count ≤ l.foldl (fun m d => max m d.count) a := by
  induction l generalizing a with
  | nil =>
      intro d hd
      exact absurd hd (List.not_mem_nil d)
  | cons x xs ih =>
      intro d hd
      rcases List.mem_cons.mp hd with h | h
      · rw [h]
        exact le_trans (le_max_right a x.count) (foldl_max_ge_init xs (max a x.count))
      · exact ih (max a x.count) d h

lemma count_le_maxCount (l : List Day) {d : Day} (hd : d ∈ l) :
    d.count ≤ maxCount l :=
  count_le_foldl_max l 0 d hd

lemma maxCount_snoc (l : List Day) (d : Day) :
    maxCount (l ++ [d]) = max (maxCount l) d.count := by
  unfold maxCount
  rw [List.foldl_append]
  rfl

lemma exists_maxCount (l : List Day) (h : 0 < maxCount l) :
    ∃ x ∈ l, x.count = maxCount l := by
  induction l using List.reverseRecOn with
  | nil => exact absurd h (by simp [maxCount])
  | append_singleton l d ih =>
      rw [maxCount_snoc] at h ⊢
      rcases Nat.le_total d.count (maxCount l) with hle | hge
      · have hmax : max (maxCount l) d.count = maxCount l := Nat.max_eq_left hle
        rw [hmax] at h ⊢
        obtain ⟨x, hx, hxc⟩ := ih h
        exact ⟨x, List.mem_append_left _ hx, hxc⟩
      · have hmax : max (maxCount l) d.count = d.count := Nat.max_eq_right hge
        rw [hmax]
        exact ⟨d, List.mem_append_right _ (List.mem_singleton_self d), rfl⟩

/-- After the pass, `best_day_count` is the maximum count. -/
lemma P_best (l : List Day) : (P l).best = maxCount l := by
  induction l using List.reverseRecOn with
  | nil => rfl
  | append_singleton l d ih =>
      rw [P_snoc, passStep_best, maxCount_snoc, ih]
      by_cases hd : 0 < d.count
      · rw [if_pos hd]
      · rw [if_neg hd]
        have h0 : d.count = 0 := by omega
        rw [h0, Nat.max_zero]

/-- After the pass, `best_day_date` is the date of the first record
attaining the maximum count (and `None` when every count is zero). -/
lemma P_bdate (l : List Day) :
    (maxCount l = 0 → (P l).bdate = none) ∧
    (0 < maxCount l → (P l).bdate =
      (l.find? (fun x => decide (x.count = maxCount l))).map Day.date) := by
  induction l using List.reverseRecOn with
  | nil => exact ⟨fun _ => rfl, fun h => absurd h (by simp [maxCount])⟩
  | append_singleton l d ih =>
      constructor
      · intro h0
        rw [maxCount_snoc] at h0
        have hl0 : maxCount l = 0 := by
          have ha := le_max_left (maxCount l) d.count
          omega
        have hd0 : d.count = 0 := by
          have hb := le_max_right (maxCount l) d.count
          omega
        rw [P_snoc, passStep_bdate, if_neg (by omega : ¬ 0 < d.count)]
        exact ih.1 hl0
      · intro hpos
        rw [maxCount_snoc] at hpos ⊢
        rcases Nat.lt_or_ge (maxCount l) d.count with hgt | hle
        · have hmax : max (maxCount l) d.count = d.count :=
            Nat.max_eq_right (le_of_lt hgt)
          rw [hmax]
          have hdpos : 0 < d.count := by omega
          rw [P_snoc, passStep_bdate, if_pos hdpos, P_best, if_pos hgt,
            List.find?_append]
          have hnone : l.find? (fun x => decide (x.count = d.count)) = none := by
            rw [List.find?_eq_none]
            intro x hx
            have hxle := count_le_maxCount l hx
            simp only [decide_eq_true_eq]
            omega
          rw [hnone]
          have hone : List.find? (fun x => decide (x.count = d.count)) [d] = some d :=
            List.find?_cons_of_pos [] (by simp)
          rw [hone]
          rfl
        · have hmax : max (maxCount l) d.count = maxCount l := Nat.max_eq_left hle
          rw [hmax] at hpos ⊢
          obtain ⟨x, hx, hxc⟩ := exists_maxCount l hpos
          have hfind : l.find? (fun y => decide (y.count = maxCount l)) ≠ none := by
            intro hn
            rw [List.find?_eq_none] at hn
            exact hn x hx (by simp [hxc])
          obtain ⟨y, hy⟩ := Option.ne_none_iff_exists'.mp hfind
          rw [P_snoc, passStep_bdate, List.find?_append, hy]
          by_cases hdpos : 0 < d.count
          · rw [if_pos hdpos, P_best, if_neg (by omega : ¬ maxCount l < d.count),
              ih.2 hpos, hy]
            rfl
          · rw [if_neg hdpos, ih.2 hpos, hy]
            rfl

/-! ### Current-streak lemmas -/

lemma currentStreakAux_cons (allDays : List Day) (today yest : Nat)
    (d : Day) (rest : List Day) :
    currentStreakAux allDays today yest (d :: rest) =
      if d.date = today ∨ d.date = yest then
        if 0 < d.count then 1 + backCount allDays (allDays.indexOf d)
        else currentStreakAux allDays today yest rest
      else if d.date < yest then 0
      else currentStreakAux allDays today yest rest := rfl

lemma indexOf_snoc_not_mem (l : List Day) (d : Day) (h : d ∉ l) :
    (l ++ [d]).indexOf d = l.length := by
  induction l with
  | nil => simp
  | cons x xs ih =>
      have hxd : x ≠ d := by
        intro he
        exact h (he ▸ List.mem_cons_self x xs)
      rw [List.cons_append, List.indexOf_cons_ne _ hxd,
        ih (fun hm => h (List.mem_cons_of_mem x hm))]
      rfl

lemma indexOf_snoc_mem (l : List Day) (x d : Day) (h : d ∈ l) :
    (l ++ [x]).indexOf d = l.indexOf d := by
  induction l with
  | nil => exact absurd h (List.not_mem_nil d)
  | cons y ys ih =>
      by_cases hyd : y = d
      · rw [List.cons_append, List.indexOf_cons_eq _ hyd, List.indexOf_cons_eq _ hyd]
      · have hd' : d ∈ ys := by
          rcases List.mem_cons.mp h with h1 | h1
          · exact absurd h1.symm hyd
          · exact h1
        rw [List.cons_append, List.indexOf_cons_ne _ hyd,
          List.indexOf_cons_ne _ hyd, ih hd']

lemma backCount_snoc (l : List Day) (x : Day) :
    ∀ n, n ≤ l.length → backCount (l ++ [x]) n = backCount l n := by
  intro n
  induction n with
  | zero => intro _; rfl
  | succ n ih =>
      intro hn
      show (if 0 < ((l ++ [x]).getD n dflt).count then backCount (l ++ [x]) n + 1 else 0) =
        (if 0 < (l.getD n dflt).count then backCount l n + 1 else 0)
      rw [getD_snoc_lt l x (by omega), ih (by omega)]

lemma backCount_eq_TS_take (l : List Day) :
    ∀ n, n ≤ l.length → backCount l n = TS (l.take n) := by
  intro n
  induction n with
  | zero => intro _; rfl
  | succ n ih =>
      intro hn
      have hlt : n < l.length := by omega
      have htake : l.take (n + 1) = l.take n ++ [l.getD n dflt] := by
        rw [List.take_succ, List.getElem?_eq_getElem hlt, getD_eq_getElem l hlt]
        rfl
      rw [htake, TS_snoc]
      show (if 0 < (l.getD n dflt).count then backCount l n + 1 else 0) = _
      rw [ih (by omega)]

/-- When the most recent record is dated today or yesterday, has a
positive count, and does not occur earlier in the list, the computed
current streak is the trailing positive-record run of the whole list. -/
lemma currentStreak_snoc_pos (l : List Day) (d : Day) (today : Nat)
    (hnm : d ∉ l) (hdt : d.date = today ∨ d.date = today - 1)
    (hdc : 0 < d.count) :
    currentStreak (l ++ [d]) today = TS (l ++ [d]) := by
  unfold currentStreak
  rw [List.reverse_concat', currentStreakAux_cons, if_pos hdt, if_pos hdc,
    indexOf_snoc_not_mem l d hnm, backCount_snoc l d l.length (le_refl _),
    backCount_eq_TS_take l l.length (le_refl _), List.take_length,
    TS_snoc, if_pos hdc]
  omega

/-- When the most recent record is dated strictly before yesterday, the
scan stops immediately and the current streak is 0. -/
lemma currentStreak_last_old (l : List Day) (d : Day) (today : Nat)
    (hd : d.date < today - 1) :
    currentStreak (l ++ [d]) today = 0 := by
  unfold currentStreak
  rw [List.reverse_concat', currentStreakAux_cons]
  have h1 : ¬ (d.date = today ∨ d.date = today - 1) := by omega
  rw [if_neg h1, if_pos hd]

lemma currentStreakAux_snoc_irrel (l : List Day) (x : Day) (today yest : Nat) :
    ∀ m, (∀ d ∈ m, d ∈ l) →
      currentStreakAux (l ++ [x]) today yest m = currentStreakAux l today yest m := by
  intro m
  induction m with
  | nil => intro _; rfl
  | cons d rest ih =>
      intro hmem
      have hd : d ∈ l := hmem d (List.mem_cons_self d rest)
      have hrest : ∀ y ∈ rest, y ∈ l := fun y hy => hmem y (List.mem_cons_of_mem d hy)
      rw [currentStreakAux_cons, currentStreakAux_cons]
      by_cases h1 : d.date = today ∨ d.date = yest
      · rw [if_pos h1, if_pos h1]
        by_cases h2 : 0 < d.count
        · rw [if_pos h2, if_pos h2, indexOf_snoc_mem l x d hd,
            backCount_snoc l x (l.indexOf d) List.indexOf_le_length]
        · rw [if_neg h2, if_neg h2, ih hrest]
      · rw [if_neg h1, if_neg h1]
        by_cases h3 : d.date < yest
        · rw [if_pos h3, if_pos h3]
        · rw [if_neg h3, if_neg h3, ih hrest]

/-- A trailing record dated today with count 0 is skipped by the
current-streak scan: the result is that of the list without it. -/
lemma currentStreak_skip_today_zero (l : List Day) (today : Nat) :
    currentStreak (l ++ [⟨today, 0⟩]) today = currentStreak l today := by
  unfold currentStreak
  rw [List.reverse_concat', currentStreakAux_cons,
    if_pos (Or.inl rfl : (⟨today, 0⟩ : Day).date = today ∨
      (⟨today, 0⟩ : Day).date = today - 1),
    if_neg (Nat.lt_irrefl 0)]
  exact currentStreakAux_snoc_irrel l ⟨today, 0⟩ today (today - 1) l.reverse
    (fun d hd => List.mem_reverse.mp hd)

/-! ### Date-contiguity lemmas -/

lemma chain_dates (l : List Day)
    (hc : List.Chain' (fun a b => b.date = a.date + 1) l) :
    ∀ j, j < l.length → (l.getD j dflt).date = (l.getD 0 dflt).date + j := by
  intro j
  induction j with
  | zero =>
      intro _
      rw [Nat.add_zero]
  | succ j ih =>
      intro hj
      have hj' : j < l.length := by omega
      have hstep' : (l.get ⟨j + 1, hj⟩).date = (l.get ⟨j, hj'⟩).date + 1 :=
        (List.chain'_iff_get.mp hc) j (by omega)
      have ih' := ih hj'
      rw [getD_eq_get_fin l hj'] at ih'
      rw [getD_eq_get_fin l hj, hstep', ih']
      omega

lemma pairwise_lt_of_chain_adj (l : List Day)
    (hc : List.Chain' (fun a b => b.date = a.date + 1) l) :
    List.Pairwise (fun a b => a.date < b.date) l := by
  have hlt : List.Chain' (fun a b => a.date < b.date) l :=
    hc.imp (fun h => by omega)
  haveI : IsTrans Day (fun a b => a.date < b.date) :=
    ⟨fun a b c h1 h2 => lt_trans h1 h2⟩
  exact List.chain'_iff_pairwise.mp hlt

lemma last_not_mem (l : List Day) (d : Day)
    (hp : List.Pairwise (fun a b => a.date < b.date) (l ++ [d])) : d ∉ l := by
  intro hd
  have := (List.pairwise_append.mp hp).2.2 d hd d (List.mem_singleton_self d)
  exact lt_irrefl d.date this

/-- Modelled-from-the-spec backward walk agrees with the trailing run
when the list is date-contiguous. -/
lemma contigBack_eq_TS (l : List Day) :
    ∀ pd, List.Chain' (fun a b => b.date = a.date + 1) l →
      (∀ x, l.getLast? = some x → x.date + 1 = pd) →
      contigBack pd l.reverse = TS l := by
  induction l using List.reverseRecOn with
  | nil => intro pd _ _; rfl
  | append_singleton l x ih =>
      intro pd hc hlast
      have hx : x.date + 1 = pd := hlast x (List.getLast?_concat l)
      rw [List.reverse_concat']
      show (if x.date + 1 = pd ∧ 0 < x.count then
          contigBack x.date l.reverse + 1 else 0) = TS (l ++ [x])
      rw [TS_snoc]
      by_cases hxc : 0 < x.count
      · rw [if_pos ⟨hx, hxc⟩, if_pos hxc]
        congr 1
        refine ih x.date (List.chain'_append.mp hc).1 ?_
        intro y hy
        have h3 := (List.chain'_append.mp hc).2.2 y hy x rfl
        omega
      · rw [if_neg (fun hand => hxc hand.2), if_neg hxc]

/-- The spec's current streak, on a contiguous list ending in a positive
record dated today or yesterday, is also the trailing run. -/
lemma specCurrentStreak_snoc (l : List Day) (d : Day) (today : Nat)
    (hc : List.Chain' (fun a b => b.date = a.date + 1) (l ++ [d]))
    (hdt : d.date = today ∨ d.date = today - 1) (hdc : 0 < d.count) :
    specCurrentStreak (l ++ [d]) today = TS (l ++ [d]) := by
  unfold specCurrentStreak
  rw [List.reverse_concat']
  show (if (d.date = today ∨ d.date = today - 1) ∧ 0 < d.count then
      contigBack d.date l.reverse + 1 else 0) = TS (l ++ [d])
  rw [if_pos ⟨hdt, hdc⟩, TS_snoc, if_pos hdc]
  congr 1
  refine contigBack_eq_TS l d.date (List.chain'_append.mp hc).1 ?_
  intro y hy
  have h3 := (List.chain'_append.mp hc).2.2 y hy d rfl
  omega

/-! ### Finalize field lemmas and empty-input lemmas -/

lemma finalize_lstart_of_lt (l : List Day)
    (h : (P l).longest < (P l).temp) :
    (finalize l (P l)).lstart = (P l).tstart := by
  unfold finalize
  rw [if_pos h]

lemma finalize_longest_of_lt (l : List Day)
    (h : (P l).longest < (P l).temp) :
    (finalize l (P l)).longest = (P l).temp := by
  unfold finalize
  rw [if_pos h]

lemma finalize_lend_of_lt (l : List Day) (hne : l ≠ [])
    (h : (P l).longest < (P l).temp) :
    (finalize l (P l)).lend = some ((l.getD (l.length - 1) dflt).date) := by
  have hlen : l.length - 1 < l.length := by
    cases l with
    | nil => exact absurd rfl hne
    | cons x xs => simp
  unfold finalize
  rw [if_pos h]
  show (match l.getLast? with
    | some p => some p.date
    | none => (P l).tstart) = some ((l.getD (l.length - 1) dflt).date)
  rw [List.getLast?_eq_getElem?, List.getElem?_eq_getElem hlen,
    getD_eq_getElem l hlen]

lemma mem_insertYear (y a : YearData) :
    ∀ acc, a ∈ insertYear y acc ↔ a = y ∨ a ∈ acc := by
  intro acc
  induction acc with
  | nil => simp [insertYear]
  | cons x xs ih =>
      unfold insertYear
      by_cases hlt : y.year < x.year
      · rw [if_pos hlt]
        simp only [List.mem_cons]
      · rw [if_neg hlt]
        simp only [List.mem_cons, ih]
        tauto

lemma mem_sortYears_aux (ys : List YearData) :
    ∀ (acc : List YearData) (a : YearData),
      a ∈ ys.foldl (fun acc y => insertYear y acc) acc ↔ a ∈ ys ∨ a ∈ acc := by
  induction ys with
  | nil =>
      intro acc a
      simp
  | cons y ytl ih =>
      intro acc a
      rw [List.foldl_cons, ih (insertYear y acc) a, mem_insertYear]
      simp only [List.mem_cons]
      tauto

lemma mem_sortYears (ys : List YearData) (a : YearData) :
    a ∈ sortYears ys ↔ a ∈ ys := by
  unfold sortYears
  rw [mem_sortYears_aux ys [] a]
  simp

lemma sumTotals_foldl_zero (ys : List YearData)
    (h : ∀ y ∈ ys, y.contributions = 0 ∧ y.commits = 0 ∧ y.prs = 0 ∧
      y.prReviews = 0 ∧ y.issues = 0) :
    ∀ acc : Totals,
      ys.foldl
        (fun t y =>
          ⟨t.contributions + y.contributions, t.commits + y.commits,
            t.prs + y.prs, t.prReviews + y.prReviews, t.issues + y.issues⟩)
        acc = acc := by
  induction ys with
  | nil => intro acc; rfl
  | cons y tl ih =>
      intro acc
      obtain ⟨h1, h2, h3, h4, h5⟩ := h y (List.mem_cons_self y tl)
      rw [List.foldl_cons]
      have hstep : (⟨acc.contributions + y.contributions, acc.commits + y.commits,
          acc.prs + y.prs, acc.prReviews + y.prReviews,
          acc.issues + y.issues⟩ : Totals) = acc := by
        rw [h1, h2, h3, h4, h5]
        cases acc
        simp
      rw [hstep]
      exact ih (fun z hz => h z (List.mem_cons_of_mem _ hz)) acc

lemma sumTotals_zero (ys : List YearData)
    (h : ∀ y ∈ ys, y.contributions = 0 ∧ y.commits = 0 ∧ y.prs = 0 ∧
      y.prReviews = 0 ∧ y.issues = 0) :
    sumTotals ys = zeroTotals :=
  sumTotals_foldl_zero ys h zeroTotals

lemma days_foldl_nil (ys : List YearData) (h : ∀ y ∈ ys, y.days = []) :
    ∀ acc : List Day, ys.foldl (fun acc y => acc ++ y.days) acc = acc := by
  induction ys with
  | nil => intro acc; rfl
  | cons y tl ih =>
      intro acc
      rw [List.foldl_cons, h y (List.mem_cons_self y tl), List.append_nil]
      exact ih (fun z hz => h z (List.mem_cons_of_mem _ hz)) acc

lemma calcFromDays_nil (today : Nat) (t : Totals) (sd : Option Nat) :
    calcFromDays today t sd [] =
      { total_contributions := t.contributions, current_streak := 0,
        longest_streak := 0, longest_streak_start := none,
        longest_streak_end := none, best_day_count := 0, best_day_date := none,
        avg_per_day := 0, total_commits := t.commits, total_prs := t.prs,
        total_pr_reviews := t.prReviews, total_issues := t.issues,
        start_date := sd } := rfl

/-! ### Claim theorems -/

/-- C1 is false as stated: on the sorted, distinct-date sequence
`[(5,3),(7,2)]` with `today = 7`, the most recent record is dated today
with positive count, but the code's backward walk does not stop at the
date gap between day 7 and day 5: it reports a current streak of 2,
while the backward run over contiguous days described by the spec has
length 1. -/
theorem claim_c1_counterexample :
    List.Pairwise (fun a b => a.date < b.date) [(⟨5, 3⟩ : Day), ⟨7, 2⟩] ∧
    (calcFromDays 7 zeroTotals none [⟨5, 3⟩, ⟨7, 2⟩]).current_streak = 2 ∧
    specCurrentStreak [⟨5, 3⟩, ⟨7, 2⟩] 7 = 1 ∧
    (calcFromDays 7 zeroTotals none [⟨5, 3⟩, ⟨7, 2⟩]).current_streak ≠
      specCurrentStreak [⟨5, 3⟩, ⟨7, 2⟩] 7 := by
  refine ⟨by decide, by decide, by decide, by decide⟩

/-- C1 (amended): on a date-contiguous merged sequence (each record dated
exactly one day after its predecessor — the shape the contribution
calendar always has) whose most recent record is dated today or
yesterday with count > 0, the computed current streak equals the spec's
backward run over consecutive, contiguous positive-count days.  On
sequences with date gaps the code does not stop at a gap, so the
contiguity hypothesis is necessary. -/
theorem claim_c1_amended (today : Nat) (t : Totals) (sd : Option Nat)
    (l : List Day) (d : Day)
    (hc : List.Chain' (fun a b => b.date = a.date + 1) (l ++ [d]))
    (hdt : d.date = today ∨ d.date = today - 1) (hdc : 0 < d.count) :
    (calcFromDays today t sd (l ++ [d])).current_streak =
      specCurrentStreak (l ++ [d]) today := by
  have hnm : d ∉ l := last_not_mem l d (pairwise_lt_of_chain_adj _ hc)
  show currentStreak (l ++ [d]) today = _
  rw [currentStreak_snoc_pos l d today hnm hdt hdc,
    specCurrentStreak_snoc l d today hc hdt hdc]

/-- C1 witness: the amended claim applied to the contiguous sequence
`[(5,1),(6,2)]` with `today = 6`. -/
theorem claim_c1_witness :
    (List.Chain' (fun a b => b.date = a.date + 1)
        ([⟨5, 1⟩] ++ [(⟨6, 2⟩ : Day)]) ∧
      ((⟨6, 2⟩ : Day).date = 6 ∨ (⟨6, 2⟩ : Day).date = 6 - 1) ∧
      0 < (⟨6, 2⟩ : Day).count) ∧
    (calcFromDays 6 zeroTotals none ([⟨5, 1⟩] ++ [⟨6, 2⟩])).current_streak =
      specCurrentStreak ([⟨5, 1⟩] ++ [⟨6, 2⟩]) 6 :=
  ⟨⟨by simp [List.chain'_cons], by decide, by decide⟩,
    claim_c1_amended 6 zeroTotals none [⟨5, 1⟩] ⟨6, 2⟩
      (by simp [List.chain'_cons]) (by decide) (by decide)⟩

/-- C2: if the most recent (last) record of the merged sequence is dated
strictly earlier than yesterday, the current streak is 0 regardless of
any of the counts: the reversed scan hits that record first and stops. -/
theorem claim_c2 (today : Nat) (t : Totals) (sd : Option Nat)
    (l : List Day) (d : Day) (hd : d.date < today - 1) :
    (calcFromDays today t sd (l ++ [d])).current_streak = 0 := by
  show currentStreak (l ++ [d]) today = 0
  exact currentStreak_last_old l d today hd

/-- C2 witness: `[(3,5),(5,4)]` with `today = 10`: the last record, day
5 with positive count, is older than yesterday (day 9), so the streak
is 0. -/
theorem claim_c2_witness :
    (⟨5, 4⟩ : Day).date < 10 - 1 ∧
    (calcFromDays 10 zeroTotals none ([⟨3, 5⟩] ++ [⟨5, 4⟩])).current_streak = 0 :=
  ⟨by decide, claim_c2 10 zeroTotals none [⟨3, 5⟩] ⟨5, 4⟩ (by decide)⟩

/-- C3 is false as stated: on `[(9,1),(10,0)]` with `today = 10`, the
last record is dated today with count 0, yet the current streak is 1,
not 0 — the scan does not break on a today-dated zero-count record, it
moves on to yesterday's record. -/
theorem claim_c3_counterexample :
    List.Pairwise (fun a b => a.date < b.date) [(⟨9, 1⟩ : Day), ⟨10, 0⟩] ∧
    (⟨10, 0⟩ : Day).count = 0 ∧
    (calcFromDays 10 zeroTotals none [⟨9, 1⟩, ⟨10, 0⟩]).current_streak = 1 ∧
    (calcFromDays 10 zeroTotals none [⟨9, 1⟩, ⟨10, 0⟩]).current_streak ≠ 0 := by
  refine ⟨by decide, by decide, by decide, by decide⟩

/-- C3 (amended): a trailing record dated exactly today with count 0 is
skipped, not streak-breaking: the current streak of the sequence with
such a record equals the current streak of the sequence without it (so
it is 0 exactly when the remaining records yield 0, e.g. when yesterday
is absent or has count 0). -/
theorem claim_c3_amended (today : Nat) (t : Totals) (sd : Option Nat)
    (l : List Day) :
    (calcFromDays today t sd (l ++ [⟨today, 0⟩])).current_streak =
      (calcFromDays today t sd l).current_streak := by
  show currentStreak (l ++ [⟨today, 0⟩]) today = currentStreak l today
  exact currentStreak_skip_today_zero l today

/-- C4: when the merged sequence ends on a record with count > 0 and the
trailing run of positive-count records is strictly longer than the
longest streak recorded during the left-to-right pass, the final
close-out replaces the longest streak with that trailing run: its
length, the date of the run's first record as start, and the last
record's date as end. -/
theorem claim_c4 (today : Nat) (t : Totals) (sd : Option Nat)
    (l : List Day) (d : Day) (hdc : 0 < d.count)
    (hgt : (runPass none initState (l ++ [d])).longest < TS (l ++ [d])) :
    (calcFromDays today t sd (l ++ [d])).longest_streak = TS (l ++ [d]) ∧
    (calcFromDays today t sd (l ++ [d])).longest_streak_start =
      some (((l ++ [d]).getD ((l ++ [d]).length - TS (l ++ [d])) dflt).date) ∧
    (calcFromDays today t sd (l ++ [d])).longest_streak_end = some d.date := by
  have hlt : (P (l ++ [d])).longest < (P (l ++ [d])).temp := by
    rw [P_temp]
    exact hgt
  have hTS : 0 < TS (l ++ [d]) := by
    have h0 : 0 ≤ (P (l ++ [d])).longest := Nat.zero_le _
    omega
  have hne : l ++ [d] ≠ [] := by simp
  refine ⟨?_, ?_, ?_⟩
  · show (finalize (l ++ [d]) (P (l ++ [d]))).longest = TS (l ++ [d])
    rw [finalize_longest_of_lt (l ++ [d]) hlt, P_temp]
  · show (finalize (l ++ [d]) (P (l ++ [d]))).lstart = _
    rw [finalize_lstart_of_lt (l ++ [d]) hlt, P_tstart (l ++ [d]) hTS]
  · show (finalize (l ++ [d]) (P (l ++ [d]))).lend = some d.date
    rw [finalize_lend_of_lt (l ++ [d]) hne hlt]
    have hlen : (l ++ [d]).length - 1 = l.length := by simp
    rw [hlen, getD_snoc_length]

/-- C4 witness: `[(1,0),(2,1),(3,1)]` — the trailing run of length 2
exceeds the longest recorded during the pass (0), so the close-out
reports length 2, start day 2, end day 3. -/
theorem claim_c4_witness :
    (0 < (⟨3, 1⟩ : Day).count ∧
      (runPass none initState ([⟨1, 0⟩, ⟨2, 1⟩] ++ [⟨3, 1⟩])).longest <
        TS ([⟨1, 0⟩, ⟨2, 1⟩] ++ [⟨3, 1⟩])) ∧
    ((calcFromDays 3 zeroTotals none
        ([⟨1, 0⟩, ⟨2, 1⟩] ++ [⟨3, 1⟩])).longest_streak =
      TS ([⟨1, 0⟩, ⟨2, 1⟩] ++ [⟨3, 1⟩]) ∧
    (calcFromDays 3 zeroTotals none
        ([⟨1, 0⟩, ⟨2, 1⟩] ++ [⟨3, 1⟩])).longest_streak_start =
      some ((([⟨1, 0⟩, ⟨2, 1⟩] ++ [⟨3, 1⟩] : List Day).getD
        (([⟨1, 0⟩, ⟨2, 1⟩] ++ [⟨3, 1⟩] : List Day).length -
          TS ([⟨1, 0⟩, ⟨2, 1⟩] ++ [⟨3, 1⟩])) dflt).date) ∧
    (calcFromDays 3 zeroTotals none
        ([⟨1, 0⟩, ⟨2, 1⟩] ++ [⟨3, 1⟩])).longest_streak_end =
      some (⟨3, 1⟩ : Day).date) :=
  ⟨⟨by decide, by decide⟩,
    claim_c4 3 zeroTotals none [⟨1, 0⟩, ⟨2, 1⟩] ⟨3, 1⟩ (by decide) (by decide)⟩

/-- C5 is false as stated: on the sorted, distinct-date sequence
`[(0,1),(2,1)]` the pass counts two positive records as one streak even
though their dates are not consecutive, reporting length 2 with start
day 0 and end day 2 — but the number of calendar days from 0 to 2
inclusive is 3, so the reported length does not equal `end - start + 1`. -/
theorem claim_c5_counterexample :
    List.Pairwise (fun a b => a.date < b.date) [(⟨0, 1⟩ : Day), ⟨2, 1⟩] ∧
    (calcFromDays 2 zeroTotals none [⟨0, 1⟩, ⟨2, 1⟩]).longest_streak = 2 ∧
    (calcFromDays 2 zeroTotals none [⟨0, 1⟩, ⟨2, 1⟩]).longest_streak_start =
      some 0 ∧
    (calcFromDays 2 zeroTotals none [⟨0, 1⟩, ⟨2, 1⟩]).longest_streak_end =
      some 2 ∧
    (calcFromDays 2 zeroTotals none [⟨0, 1⟩, ⟨2, 1⟩]).longest_streak ≠
      2 - 0 + 1 := by
  refine ⟨by decide, by decide, by decide, by decide, by decide⟩

/-- C5 (amended): on a date-contiguous merged sequence (the shape the
contribution calendar always has; this also forces sorted, distinct
dates), whenever the reported longest streak has positive length its
start and end dates occur in the sequence, start ≤ end, every record
dated within [start, end] has count > 0, the length equals the number of
calendar days from start to end inclusive, and no contiguous run of
positive-count records is strictly longer. -/
theorem claim_c5_amended (today : Nat) (t : Totals) (sd : Option Nat)
    (l : List Day)
    (hc : List.Chain' (fun a b => b.date = a.date + 1) l)
    (hpos : 0 < (calcFromDays today t sd l).longest_streak) :
    ∃ s e,
      (calcFromDays today t sd l).longest_streak_start = some s ∧
      (calcFromDays today t sd l).longest_streak_end = some e ∧
      (∃ d ∈ l, d.date = s) ∧ (∃ d ∈ l, d.date = e) ∧ s ≤ e ∧
      (∀ d ∈ l, s ≤ d.date → d.date ≤ e → 0 < d.count) ∧
      (calcFromDays today t sd l).longest_streak = e - s + 1 ∧
      (∀ i L, posRun l i L → L ≤ (calcFromDays today t sd l).longest_streak) := by
  have hpos' : 0 < (finalize l (P l)).longest := hpos
  rcases good_final l with h0 | ⟨i, pr, h1, h2⟩
  · rw [h0] at hpos'
    exact absurd hpos' (lt_irrefl 0)
  · have hb := pr.1
    have hi : i < l.length := by omega
    have hi2 : i + (finalize l (P l)).longest - 1 < l.length := by omega
    have hdi := chain_dates l hc i hi
    have hdi2 := chain_dates l hc (i + (finalize l (P l)).longest - 1) hi2
    refine ⟨(l.getD i dflt).date,
      (l.getD (i + (finalize l (P l)).longest - 1) dflt).date,
      h1, h2, ⟨l.getD i dflt, getD_mem l hi, rfl⟩,
      ⟨l.getD (i + (finalize l (P l)).longest - 1) dflt, getD_mem l hi2, rfl⟩,
      ?_, ?_, ?_, ?_⟩
    · rw [hdi, hdi2]
      omega
    · intro d hd hsd hde
      obtain ⟨n, hn⟩ := List.mem_iff_get.mp hd
      have hjlt : (n : Nat) < l.length := n.isLt
      have hdj := chain_dates l hc n hjlt
      have hdn : l.getD (n : Nat) dflt = d := by
        rw [getD_eq_getElem l hjlt, ← List.get_eq_getElem, hn]
      rw [hdn] at hdj
      rw [hdi] at hsd
      rw [hdi2] at hde
      rw [hdj] at hsd hde
      have hj1 : i ≤ (n : Nat) := by omega
      have hj2 : (n : Nat) ≤ i + (finalize l (P l)).longest - 1 := by omega
      have hp := pr.2 ((n : Nat) - i) (by omega)
      have hidx : i + ((n : Nat) - i) = (n : Nat) := by omega
      rw [hidx, hdn] at hp
      exact hp
    · show (finalize l (P l)).longest = _
      rw [hdi, hdi2]
      omega
    · intro i' L' pr'
      have hle := posRun_le_max l i' L' pr'
      show L' ≤ (finalize l (P l)).longest
      rw [finalize_longest]
      exact hle

/-- C5 witness: the amended claim applied to the contiguous sequence
`[(1,2),(2,0),(3,1)]`, whose reported longest streak is the single
day 1. -/
theorem claim_c5_witness :
    (List.Chain' (fun a b => b.date = a.date + 1)
        [(⟨1, 2⟩ : Day), ⟨2, 0⟩, ⟨3, 1⟩] ∧
      0 < (calcFromDays 3 zeroTotals none
        [⟨1, 2⟩, ⟨2, 0⟩, ⟨3, 1⟩]).longest_streak) ∧
    (∃ s e,
      (calcFromDays 3 zeroTotals none
        [⟨1, 2⟩, ⟨2, 0⟩, ⟨3, 1⟩]).longest_streak_start = some s ∧
      (calcFromDays 3 zeroTotals none
        [⟨1, 2⟩, ⟨2, 0⟩, ⟨3, 1⟩]).longest_streak_end = some e ∧
      (∃ d ∈ [(⟨1, 2⟩ : Day), ⟨2, 0⟩, ⟨3, 1⟩], d.date = s) ∧
      (∃ d ∈ [(⟨1, 2⟩ : Day), ⟨2, 0⟩, ⟨3, 1⟩], d.date = e) ∧ s ≤ e ∧
      (∀ d ∈ [(⟨1, 2⟩ : Day), ⟨2, 0⟩, ⟨3, 1⟩],
        s ≤ d.date → d.date ≤ e → 0 < d.count) ∧
      (calcFromDays 3 zeroTotals none
        [⟨1, 2⟩, ⟨2, 0⟩, ⟨3, 1⟩]).longest_streak = e - s + 1 ∧
      (∀ i L, posRun [(⟨1, 2⟩ : Day), ⟨2, 0⟩, ⟨3, 1⟩] i L →
        L ≤ (calcFromDays 3 zeroTotals none
          [⟨1, 2⟩, ⟨2, 0⟩, ⟨3, 1⟩]).longest_streak)) :=
  ⟨⟨by simp [List.chain'_cons], by decide⟩,
    claim_c5_amended 3 zeroTotals none [⟨1, 2⟩, ⟨2, 0⟩, ⟨3, 1⟩]
      (by simp [List.chain'_cons]) (by decide)⟩

/-- C6: on a date-sorted merged sequence with a positive maximum count,
the best day is the earliest record attaining the maximum: the reported
count is the maximum, the reported date belongs to a record attaining
it, and every record attaining the maximum is dated no earlier —
because the record is only overwritten on a strictly larger count. -/
theorem claim_c6 (today : Nat) (t : Totals) (sd : Option Nat) (l : List Day)
    (hs : List.Pairwise (fun a b => a.date < b.date) l)
    (hmax : 0 < maxCount l) :
    (calcFromDays today t sd l).best_day_count = maxCount l ∧
    ∃ b, (calcFromDays today t sd l).best_day_date = some b ∧
      (∃ d ∈ l, d.date = b ∧ d.count = maxCount l) ∧
      (∀ d ∈ l, d.count = maxCount l → b ≤ d.date) := by
  obtain ⟨x, hx, hxc⟩ := exists_maxCount l hmax
  have hfind : l.find? (fun y => decide (y.count = maxCount l)) ≠ none := by
    intro hn
    rw [List.find?_eq_none] at hn
    exact hn x hx (by simp [hxc])
  obtain ⟨y, hy⟩ := Option.ne_none_iff_exists'.mp hfind
  have hyc : y.count = maxCount l := by
    have h0 := List.find?_some hy
    simpa using h0
  have hymem : y ∈ l := List.mem_of_find?_eq_some hy
  have hbd : (calcFromDays today t sd l).best_day_date = some y.date := by
    show (finalize l (P l)).bdate = some y.date
    rw [finalize_bdate, (P_bdate l).2 hmax, hy]
    rfl
  refine ⟨?_, y.date, hbd, ⟨y, hymem, rfl, hyc⟩, ?_⟩
  · show (finalize l (P l)).best = maxCount l
    rw [finalize_best, P_best]
  · intro d hd hdcnt
    obtain ⟨hpy, as, bs, hsplit, hnotp⟩ := List.find?_eq_some.mp hy
    rw [hsplit] at hs hd
    rcases List.mem_append.mp hd with hda | hdy
    · have hfalse := hnotp d hda
      simp [hdcnt] at hfalse
    · rcases List.mem_cons.mp hdy with heq | hdbs
      · rw [heq]
      · have hlt := (List.pairwise_cons.mp
          (List.pairwise_append.mp hs).2.1).1 d hdbs
        exact le_of_lt hlt

/-- C6 witness: the tie `[(5,2),(6,1),(7,2)]` — days 5 and 7 share the
maximum count 2 and the reported best day is the earlier day 5. -/
theorem claim_c6_witness :
    (List.Pairwise (fun a b => a.date < b.date)
        [(⟨5, 2⟩ : Day), ⟨6, 1⟩, ⟨7, 2⟩] ∧
      0 < maxCount [⟨5, 2⟩, ⟨6, 1⟩, ⟨7, 2⟩]) ∧
    ((calcFromDays 7 zeroTotals none
        [⟨5, 2⟩, ⟨6, 1⟩, ⟨7, 2⟩]).best_day_count =
      maxCount [⟨5, 2⟩, ⟨6, 1⟩, ⟨7, 2⟩] ∧
    ∃ b, (calcFromDays 7 zeroTotals none
        [⟨5, 2⟩, ⟨6, 1⟩, ⟨7, 2⟩]).best_day_date = some b ∧
      (∃ d ∈ [(⟨5, 2⟩ : Day), ⟨6, 1⟩, ⟨7, 2⟩], d.date = b ∧
        d.count = maxCount [⟨5, 2⟩, ⟨6, 1⟩, ⟨7, 2⟩]) ∧
      (∀ d ∈ [(⟨5, 2⟩ : Day), ⟨6, 1⟩, ⟨7, 2⟩],
        d.count = maxCount [⟨5, 2⟩, ⟨6, 1⟩, ⟨7, 2⟩] → b ≤ d.date)) :=
  ⟨⟨by decide, by decide⟩,
    claim_c6 7 zeroTotals none [⟨5, 2⟩, ⟨6, 1⟩, ⟨7, 2⟩]
      (by decide) (by decide)⟩

/-- C7 is false as stated: with days `[(10,5),(12,3)]`, `today = 10`,
and the rollup total 8 consistent with those counts, the code divides
the unfiltered total 8 by the one eligible day, giving 8 — the
contribution dated after today is NOT excluded from the numerator as
the claim requires (which would give 5/1 = 5). -/
theorem claim_c7_counterexample :
    ([(⟨10, 5⟩ : Day), ⟨12, 3⟩].map Day.count).sum =
      (⟨8, 0, 0, 0, 0⟩ : Totals).contributions ∧
    (calcFromDays 10 ⟨8, 0, 0, 0, 0⟩ none [⟨10, 5⟩, ⟨12, 3⟩]).avg_per_day = 8 ∧
    specAvg 10 [⟨10, 5⟩, ⟨12, 3⟩] = 5 ∧
    (calcFromDays 10 ⟨8, 0, 0, 0, 0⟩ none [⟨10, 5⟩, ⟨12, 3⟩]).avg_per_day ≠
      specAvg 10 [⟨10, 5⟩, ⟨12, 3⟩] := by
  have h1 : (calcFromDays 10 ⟨8, 0, 0, 0, 0⟩ none
      [⟨10, 5⟩, ⟨12, 3⟩]).avg_per_day = ((8 : Nat) : ℚ) / ((1 : Nat) : ℚ) := rfl
  have h2 : specAvg 10 [⟨10, 5⟩, ⟨12, 3⟩] =
      ((5 : Nat) : ℚ) / ((1 : Nat) : ℚ) := rfl
  refine ⟨by decide, ?_, ?_, ?_⟩
  · rw [h1]
    norm_num
  · rw [h2]
    norm_num
  · rw [h1, h2]
    norm_num

/-- C7 (amended): averagePerDay is the summed rollup total — unfiltered
by date — divided by the number of fetched days dated ≤ today (and 0
when there is no such day): whenever that number is positive,
`avg * daysUpToToday = totalContributions`. -/
theorem claim_c7_amended (today : Nat) (t : Totals) (sd : Option Nat)
    (l : List Day)
    (h : 0 < (l.filter (fun d => d.date ≤ today)).length) :
    (calcFromDays today t sd l).avg_per_day *
      ((l.filter (fun d => d.date ≤ today)).length : ℚ) =
      (t.contributions : ℚ) := by
  show (if 0 < (l.filter (fun d => d.date ≤ today)).length then
      (t.contributions : ℚ) / ((l.filter (fun d => d.date ≤ today)).length : ℚ)
    else 0) * ((l.filter (fun d => d.date ≤ today)).length : ℚ) =
    (t.contributions : ℚ)
  rw [if_pos h]
  exact div_mul_cancel₀ _ (Nat.cast_ne_zero.mpr (by omega))

/-- C7 witness: two days up to `today = 2` with rollup total 8 give an
average satisfying `avg * 2 = 8`. -/
theorem claim_c7_witness :
    0 < (([(⟨1, 5⟩ : Day), ⟨2, 3⟩]).filter (fun d => d.date ≤ 2)).length ∧
    (calcFromDays 2 ⟨8, 0, 0, 0, 0⟩ none [⟨1, 5⟩, ⟨2, 3⟩]).avg_per_day *
      ((([(⟨1, 5⟩ : Day), ⟨2, 3⟩]).filter (fun d => d.date ≤ 2)).length : ℚ) =
      ((⟨8, 0, 0, 0, 0⟩ : Totals).contributions : ℚ) :=
  ⟨by decide,
    claim_c7_amended 2 ⟨8, 0, 0, 0, 0⟩ none [⟨1, 5⟩, ⟨2, 3⟩] (by decide)⟩

/-- C8: on empty input — no years, or years whose fetched data is empty
(empty day list and zero rollups) — the aggregator does not fail and
every numeric output is zero, every date output empty, and in
particular averagePerDay is 0 because the division is guarded by
`total_days > 0`; with no years at all the start date is also empty. -/
theorem claim_c8 (today : Nat) (ys : List YearData)
    (h : ∀ y ∈ ys, y.days = [] ∧ y.contributions = 0 ∧ y.commits = 0 ∧
      y.prs = 0 ∧ y.prReviews = 0 ∧ y.issues = 0) :
    (calculate today ys).total_contributions = 0 ∧
    (calculate today ys).current_streak = 0 ∧
    (calculate today ys).longest_streak = 0 ∧
    (calculate today ys).longest_streak_start = none ∧
    (calculate today ys).longest_streak_end = none ∧
    (calculate today ys).best_day_count = 0 ∧
    (calculate today ys).best_day_date = none ∧
    (calculate today ys).avg_per_day = 0 ∧
    (calculate today ys).total_commits = 0 ∧
    (calculate today ys).total_prs = 0 ∧
    (calculate today ys).total_pr_reviews = 0 ∧
    (calculate today ys).total_issues = 0 ∧
    (ys = [] → (calculate today ys).start_date = none) := by
  have hmem : ∀ y ∈ sortYears ys, y.days = [] ∧ y.contributions = 0 ∧
      y.commits = 0 ∧ y.prs = 0 ∧ y.prReviews = 0 ∧ y.issues = 0 :=
    fun y hy => h y ((mem_sortYears ys y).mp hy)
  have hdays : (sortYears ys).foldl (fun acc y => acc ++ y.days) [] = [] :=
    days_foldl_nil (sortYears ys) (fun y hy => (hmem y hy).1) []
  have htot : sumTotals (sortYears ys) = zeroTotals :=
    sumTotals_zero (sortYears ys) (fun y hy => (hmem y hy).2)
  have hcalc : calculate today ys =
      calcFromDays today zeroTotals ((sortYears ys).head?.map (·.year)) [] := by
    show calcFromDays today (sumTotals (sortYears ys))
        ((sortYears ys).head?.map (·.year))
        (sortDays ((sortYears ys).foldl (fun acc y => acc ++ y.days) [])) = _
    rw [hdays, htot]
    rfl
  rw [hcalc, calcFromDays_nil]
  refine ⟨rfl, rfl, rfl, rfl, rfl, rfl, rfl, rfl, rfl, rfl, rfl, rfl, ?_⟩
  intro hys
  rw [hys]
  rfl

/-- C8 witness: one requested year with empty data, `today = 7`. -/
theorem claim_c8_witness :
    (∀ y ∈ [(⟨2024, 0, 0, 0, 0, 0, []⟩ : YearData)], y.days = [] ∧
      y.contributions = 0 ∧ y.commits = 0 ∧ y.prs = 0 ∧ y.prReviews = 0 ∧
      y.issues = 0) ∧
    ((calculate 7 [⟨2024, 0, 0, 0, 0, 0, []⟩]).total_contributions = 0 ∧
    (calculate 7 [⟨2024, 0, 0, 0, 0, 0, []⟩]).current_streak = 0 ∧
    (calculate 7 [⟨2024, 0, 0, 0, 0, 0, []⟩]).longest_streak = 0 ∧
    (calculate 7 [⟨2024, 0, 0, 0, 0, 0, []⟩]).longest_streak_start = none ∧
    (calculate 7 [⟨2024, 0, 0, 0, 0, 0, []⟩]).longest_streak_end = none ∧
    (calculate 7 [⟨2024, 0, 0, 0, 0, 0, []⟩]).best_day_count = 0 ∧
    (calculate 7 [⟨2024, 0, 0, 0, 0, 0, []⟩]).best_day_date = none ∧
    (calculate 7 [⟨2024, 0, 0, 0, 0, 0, []⟩]).avg_per_day = 0 ∧
    (calculate 7 [⟨2024, 0, 0, 0, 0, 0, []⟩]).total_commits = 0 ∧
    (calculate 7 [⟨2024, 0, 0, 0, 0, 0, []⟩]).total_prs = 0 ∧
    (calculate 7 [⟨2024, 0, 0, 0, 0, 0, []⟩]).total_pr_reviews = 0 ∧
    (calculate 7 [⟨2024, 0, 0, 0, 0, 0, []⟩]).total_issues = 0 ∧
    ([(⟨2024, 0, 0, 0, 0, 0, []⟩ : YearData)] = [] →
      (calculate 7 [⟨2024, 0, 0, 0, 0, 0, []⟩]).start_date = none)) :=
  ⟨by decide, claim_c8 7 [⟨2024, 0, 0, 0, 0, 0, []⟩] (by decide)⟩

/-- C9 (Scenario A): days `[(1,5),(2,3),(3,0),(4,7)]` (standing for
2024-01-01 .. 2024-01-04) with `today = 4` and a consistent rollup
total of 15 give: total 15, longest streak of length 2 from day 1 to
day 2, current streak 1, best day (4, 7), and average 15/4 = 3.75. -/
theorem claim_c9 :
    (calculate 4 [⟨2024, 15, 0, 0, 0, 0,
        [⟨1, 5⟩, ⟨2, 3⟩, ⟨3, 0⟩, ⟨4, 7⟩]⟩]).total_contributions = 15 ∧
    (calculate 4 [⟨2024, 15, 0, 0, 0, 0,
        [⟨1, 5⟩, ⟨2, 3⟩, ⟨3, 0⟩, ⟨4, 7⟩]⟩]).longest_streak = 2 ∧
    (calculate 4 [⟨2024, 15, 0, 0, 0, 0,
        [⟨1, 5⟩, ⟨2, 3⟩, ⟨3, 0⟩, ⟨4, 7⟩]⟩]).longest_streak_start = some 1 ∧
    (calculate 4 [⟨2024, 15, 0, 0, 0, 0,
        [⟨1, 5⟩, ⟨2, 3⟩, ⟨3, 0⟩, ⟨4, 7⟩]⟩]).longest_streak_end = some 2 ∧
    (calculate 4 [⟨2024, 15, 0, 0, 0, 0,
        [⟨1, 5⟩, ⟨2, 3⟩, ⟨3, 0⟩, ⟨4, 7⟩]⟩]).current_streak = 1 ∧
    (calculate 4 [⟨2024, 15, 0, 0, 0, 0,
        [⟨1, 5⟩, ⟨2, 3⟩, ⟨3, 0⟩, ⟨4, 7⟩]⟩]).best_day_count = 7 ∧
    (calculate 4 [⟨2024, 15, 0, 0, 0, 0,
        [⟨1, 5⟩, ⟨2, 3⟩, ⟨3, 0⟩, ⟨4, 7⟩]⟩]).best_day_date = some 4 ∧
    (calculate 4 [⟨2024, 15, 0, 0, 0, 0,
        [⟨1, 5⟩, ⟨2, 3⟩, ⟨3, 0⟩, ⟨4, 7⟩]⟩]).avg_per_day = 15 / 4 ∧
    (15 : ℚ) / 4 = 3.75 ∧
    (calculate 4 [⟨2024, 15, 0, 0, 0, 0,
        [⟨1, 5⟩, ⟨2, 3⟩, ⟨3, 0⟩, ⟨4, 7⟩]⟩]).start_date = some 2024 := by
  have havg : (calculate 4 [⟨2024, 15, 0, 0, 0, 0,
      [⟨1, 5⟩, ⟨2, 3⟩, ⟨3, 0⟩, ⟨4, 7⟩]⟩]).avg_per_day =
      ((15 : Nat) : ℚ) / ((4 : Nat) : ℚ) := rfl
  refine ⟨by decide, by decide, by decide, by decide, by decide, by decide,
    by decide, ?_, by norm_num, by decide⟩
  rw [havg]
  norm_num

/-- C10: when the merged sequence is sorted with distinct dates and its
last record is dated today with count > 0 (so the whole current streak
is the trailing run of the sequence), the reported longest streak is at
least the reported current streak: the close-out finalizes the trailing
run, and the current streak is exactly that trailing run. -/
theorem claim_c10 (today : Nat) (t : Totals) (sd : Option Nat)
    (l : List Day) (d : Day)
    (hs : List.Pairwise (fun a b => a.date < b.date) (l ++ [d]))
    (hdt : d.date = today) (hdc : 0 < d.count) :
    (calcFromDays today t sd (l ++ [d])).current_streak ≤
      (calcFromDays today t sd (l ++ [d])).longest_streak := by
  have hnm : d ∉ l := last_not_mem l d hs
  have hcur : (calcFromDays today t sd (l ++ [d])).current_streak =
      TS (l ++ [d]) :=
    currentStreak_snoc_pos l d today hnm (Or.inl hdt) hdc
  have hlong : (calcFromDays today t sd (l ++ [d])).longest_streak =
      max (P (l ++ [d])).longest (TS (l ++ [d])) :=
    finalize_longest (l ++ [d])
  rw [hcur, hlong]
  exact le_max_right _ _

/-- C10 witness: `[(4,2),(5,1)]` with `today = 5`: current streak 2,
longest streak 2. -/
theorem claim_c10_witness :
    (List.Pairwise (fun a b => a.date < b.date)
        ([⟨4, 2⟩] ++ [(⟨5, 1⟩ : Day)]) ∧
      (⟨5, 1⟩ : Day).date = 5 ∧ 0 < (⟨5, 1⟩ : Day).count) ∧
    (calcFromDays 5 zeroTotals none ([⟨4, 2⟩] ++ [⟨5, 1⟩])).current_streak ≤
      (calcFromDays 5 zeroTotals none ([⟨4, 2⟩] ++ [⟨5, 1⟩])).longest_streak :=
  ⟨⟨by decide, by decide, by decide⟩,
    claim_c10 5 zeroTotals none [⟨4, 2⟩] ⟨5, 1⟩ (by decide) (by decide)
      (by decide)⟩

end Today
